import Mathlib

/-!
Verification development for the visualization utility `vis_on_image.py`
(depth-aware multi-layer compositor plus renderer adapter).

Modelling choices (shallow embedding):
* Byte-valued pixels (`uint8` channels) are natural numbers; the float32
  arithmetic of the code (division by 255.0, clipping, rescaling) is carried
  out exactly over `ℚ`.
* `np.inf` is represented by a dedicated constructor of `CDepth`, so a depth
  entry is either a finite rational or infinity; `np.minimum` and `==` on
  such values are modelled by `CDepth.minD` and decidable equality
  (`np.inf == np.inf` is true, matching numpy).
* A raster (2-d numpy array) is a list of rows.  Element access out of a
  raster's bounds never occurs on the indices the compositor actually reads;
  `ratAt` uses a default for totality.
* The duck-typed dispatch of `combine_scene_image` on its arguments
  (a single `np.ndarray` raster versus a batch) is modelled by the sum types
  `SceneArg` and `DepthArg`.  A depth batch can arrive either as one ndarray
  (`arrBatch`) or as a Python list of 2-d arrays (`listBatch`); the two
  compute the same composite but differ in the in-place mutation the caller
  observes, which the embedding returns explicitly as the second component of
  `combine_scene_image` (state passing for `scene_depth[scene_depth == 0] = np.inf`).
* Exceptions raised by numpy (out-of-range indexing of the depth stack,
  failure to broadcast the background against the layer stack) are modelled
  by an `Option` result: `none` means the call raises instead of returning.
-/

/-- A pixel of a rendered RGBA layer: the renderer returns `uint8` RGBA. -/
structure RGBA where
  r : ℕ
  g : ℕ
  b : ℕ
  a : ℕ
deriving DecidableEq

/-- A pixel of a color image (the background photograph and the composite). -/
structure RGB where
  r : ℕ
  g : ℕ
  b : ℕ
deriving DecidableEq

/-- A color after normalization by 255.0, carried exactly in `ℚ`. -/
structure QRGB where
  r : ℚ
  g : ℚ
  b : ℚ
deriving DecidableEq

/-- Componentwise addition (`np.sum(bodies, axis=0)` accumulates channels). -/
def QRGB.add (p q : QRGB) : QRGB := ⟨p.r + q.r, p.g + q.g, p.b + q.b⟩

/-- A depth value: a finite float or `np.inf`. -/
inductive CDepth where
  | inf : CDepth
  | fin : ℚ → CDepth
deriving DecidableEq

/-- `np.minimum` on depth values (`inf` is the identity). -/
def CDepth.minD : CDepth → CDepth → CDepth
  | .inf, y => y
  | .fin a, .inf => .fin a
  | .fin a, .fin b => .fin (min a b)

/-- Line 142: `scene_depth[scene_depth == 0] = np.inf` — a zero entry becomes
infinity, every other entry is untouched. -/
def correctDepth : CDepth → CDepth
  | .inf => .inf
  | .fin d => if d = 0 then .inf else .fin d

/-- A 2-d array as a list of rows. -/
abbrev Raster (α : Type) := List (List α)

/-- Number of rows (`arr.shape[0]`). -/
def rheight {α : Type} (R : Raster α) : ℕ := R.length

/-- Number of columns (`arr.shape[1]`, read off the first row). -/
def rwidth {α : Type} (R : Raster α) : ℕ := (R.headD []).length

/-- Entry at row `i`, column `j` (with a default, for totality). -/
def ratAt {α : Type} (R : Raster α) (d : α) (i j : ℕ) : α := (R.getD i []).getD j d

/-- Build an `h × w` raster from an index function. -/
def buildRaster {α : Type} (h w : ℕ) (f : ℕ → ℕ → α) : Raster α :=
  (List.range h).map fun i => (List.range w).map fun j => f i j

/-- Line 142 applied to one whole depth raster. -/
def sentinelFix (D : Raster CDepth) : Raster CDepth := D.map fun row => row.map correctDepth

/-- Line 148: channels divided by 255.0 (RGB part of a normalized layer pixel). -/
def normColor (p : RGBA) : QRGB := ⟨(p.r : ℚ) / 255, (p.g : ℚ) / 255, (p.b : ℚ) / 255⟩

/-- Line 151: `valid_mask = (scene[:, :, -1] > 0)` on the normalized layer. -/
def alphaValid (p : RGBA) : Bool := decide ((0 : ℚ) < (p.a : ℚ) / 255)

/-- Line 143: `min_depth = scene_depth.min(axis=0)` at pixel `(i, j)` of a
sentinel-corrected depth batch. -/
def minDepthAt (ds : List (Raster CDepth)) (i j : ℕ) : CDepth :=
  (ds.map fun D => ratAt D .inf i j).foldr CDepth.minD .inf

/-- Lines 149-159 without depth: the effective mask of each layer at a pixel
is its coverage mask. -/
def effMasksNoDepth (layers : List (Raster RGBA)) (i j : ℕ) : List Bool :=
  layers.map fun L => alphaValid (ratAt L ⟨0, 0, 0, 0⟩ i j)

/-- Lines 149-157 with a depth batch: coverage AND
`scene_depth[idx] == min_depth` at the pixel (`ds` is the already
sentinel-corrected batch, as in the code the mutation precedes the loop). -/
def effMasksDepth (layers : List (Raster RGBA)) (ds : List (Raster CDepth)) (i j : ℕ) :
    List Bool :=
  (layers.zip ds).map fun p =>
    alphaValid (ratAt p.1 ⟨0, 0, 0, 0⟩ i j) && decide (ratAt p.2 .inf i j = minDepthAt ds i j)

/-- Column minimum of a single (H, W) depth raster.  When `scene_depth` is
passed as one 2-d ndarray, line 140 turns it into shape (H, W, 1), so the
`min(axis=0)` of line 143 runs over the ROW axis and yields per-column
minima of shape (W, 1). -/
def colMinDepth (d : Raster CDepth) (j : ℕ) : CDepth :=
  (d.map fun row => row.getD j .inf).foldr CDepth.minD .inf

/-- Lines 149-157 when `scene_depth` arrived as a single 2-d ndarray:
`scene_depth[idx]` is then row `idx` of the (H, W, 1) array and `min_depth`
is the per-column minimum, so layer `idx` keeps a pixel in column `j` iff
the depth entry at row `idx`, column `j` equals the column minimum
(`d` is the sentinel-corrected array). -/
def effMasksSingleDepth (layers : List (Raster RGBA)) (d : Raster CDepth) (i j : ℕ) :
    List Bool :=
  (List.range layers.length).map fun idx =>
    alphaValid (ratAt (layers.getD idx []) ⟨0, 0, 0, 0⟩ i j) &&
      decide (ratAt d .inf idx j = colMinDepth d j)

/-- Line 158: `bodies.append(scene[:, :, :-1] * valid_mask)` at one pixel:
the masked contribution of each layer. -/
def contribs (layers : List (Raster RGBA)) (masks : List Bool) (i j : ℕ) : List QRGB :=
  (layers.zip masks).map fun p =>
    if p.2 then normColor (ratAt p.1 ⟨0, 0, 0, 0⟩ i j) else ⟨0, 0, 0⟩

/-- `np.sum(..., axis=0)` over a list of per-layer channel values. -/
def sumQ (l : List QRGB) : QRGB := l.foldr QRGB.add ⟨0, 0, 0⟩

/-- Line 162: the summed masked contributions of all layers at one pixel. -/
def sumBodies (layers : List (Raster RGBA)) (masks : List Bool) (i j : ℕ) : QRGB :=
  sumQ (contribs layers masks i j)

/-- `np.clip(x, 0, 1)` on one channel. -/
def clip01 (q : ℚ) : ℚ := min (max q 0) 1

/-- Line 163: `(output_image * 255).astype(np.uint8)` on one channel
(truncation of a nonnegative value, then the `uint8` wrap). -/
def toByte (q : ℚ) : ℕ := (⌊q * 255⌋).toNat % 256

/-- Lines 160-163 at one pixel: clipped layer sum, plus the background where
no layer's effective mask is set (`body_mask`), rescaled to bytes. -/
def pixelOut (s : QRGB) (bm : Bool) (bgp : RGB) : RGB :=
  ⟨toByte (clip01 s.r + if bm then 0 else (bgp.r : ℚ) / 255),
   toByte (clip01 s.g + if bm then 0 else (bgp.g : ℚ) / 255),
   toByte (clip01 s.b + if bm then 0 else (bgp.b : ℚ) / 255)⟩

/-- Numpy broadcasting of one dimension: sizes must agree or one must be 1;
otherwise the operation raises (`none`). -/
def bcastDim (a b : ℕ) : Option ℕ :=
  if a = b then some a else if a = 1 then some b else if b = 1 then some a else none

/-- Index into an operand along a broadcast dimension: a size-1 operand is
repeated. -/
def bIdx (dim i : ℕ) : ℕ := if dim = 1 then 0 else i

/-- Line 162: `np.clip(np.sum(bodies, axis=0), 0, 1) + (1 - body_mask) * original_normalized`,
assembled over the whole image.  The layer stack has shape `h × w`; the
background is broadcast against it (numpy raises — `none` — when the shapes
are incompatible). -/
def assemble (h w : ℕ) (bg : Raster RGB) (sumAt : ℕ → ℕ → QRGB) (anyAt : ℕ → ℕ → Bool) :
    Option (Raster RGB) :=
  match bcastDim h (rheight bg), bcastDim w (rwidth bg) with
  | some ho, some wo =>
      some (buildRaster ho wo fun i j =>
        pixelOut (sumAt (bIdx h i) (bIdx w j)) (anyAt (bIdx h i) (bIdx w j))
          (ratAt bg ⟨0, 0, 0⟩ (bIdx (rheight bg) i) (bIdx (rwidth bg) j)))
  | _, _ => none

/-- Lines 145-163: the per-pixel loop and final blend, given the per-pixel
effective masks.  `body_mask = np.sum(valid_masks, axis=0) > 0` is `any`. -/
def composite (layers : List (Raster RGBA)) (bg : Raster RGB) (masksAt : ℕ → ℕ → List Bool) :
    Option (Raster RGB) :=
  assemble (rheight (layers.headD [])) (rwidth (layers.headD [])) bg
    (fun i j => sumBodies layers (masksAt i j) i j)
    (fun i j => (masksAt i j).any id)

/-- `scene_rgba`: either one raster (ndim 3 ndarray, line 134) or a batch. -/
inductive SceneArg where
  | single : Raster RGBA → SceneArg
  | batch : List (Raster RGBA) → SceneArg

/-- `scene_depth`: absent, one 2-d ndarray, a 3-d ndarray batch, or a Python
list of 2-d arrays (the latter two composite identically but differ in the
mutation the caller observes). -/
inductive DepthArg where
  | nodepth : DepthArg
  | arrSingle : Raster CDepth → DepthArg
  | arrBatch : List (Raster CDepth) → DepthArg
  | listBatch : List (Raster CDepth) → DepthArg

/-- Lines 134-135 and 148: a single raster is promoted to a batch of one. -/
def layersOf : SceneArg → List (Raster RGBA)
  | .single r => [r]
  | .batch rs => rs

/-- Lines 136-157: which effective-mask computation each depth argument
induces.  Sentinel correction (line 142) happens before the masks are read. -/
def masksAtOf (layers : List (Raster RGBA)) : DepthArg → ℕ → ℕ → List Bool
  | .nodepth => effMasksNoDepth layers
  | .arrSingle d => effMasksSingleDepth layers (sentinelFix d)
  | .arrBatch ds => effMasksDepth layers (ds.map sentinelFix)
  | .listBatch ds => effMasksDepth layers (ds.map sentinelFix)

/-- `scene_depth[idx]` raises `IndexError` when the loop index outruns the
first axis of the depth stack (line 155); `true` means no such error. -/
def depthGuard (layers : List (Raster RGBA)) : DepthArg → Bool
  | .nodepth => true
  | .arrSingle d => decide (layers.length ≤ rheight d)
  | .arrBatch ds => decide (layers.length ≤ ds.length)
  | .listBatch ds => decide (layers.length ≤ ds.length)

/-- The caller-visible state of the `scene_depth` argument after the call:
line 142 writes through a view when the argument is an ndarray (zero entries
become `inf`), while a Python list is first copied by `np.asarray`
(line 138) and stays unchanged. -/
def depthArgAfter : DepthArg → DepthArg
  | .nodepth => .nodepth
  | .arrSingle d => .arrSingle (sentinelFix d)
  | .arrBatch ds => .arrBatch (ds.map sentinelFix)
  | .listBatch ds => .listBatch ds

/-- Lines 110-164, `combine_scene_image`.  First component: the returned
composite (`none` when numpy raises).  Second component: the state of the
caller's `scene_depth` argument after the call. -/
def combine_scene_image (scene : SceneArg) (original_image : Raster RGB)
    (scene_depth : DepthArg) : Option (Raster RGB) × DepthArg :=
  let layers := layersOf scene
  (if depthGuard layers scene_depth then
      composite layers original_image (masksAtOf layers scene_depth)
    else none,
   depthArgAfter scene_depth)

/-- A 3-vector of floats (`camera_translation`). -/
structure Vec3 where
  x : ℚ
  y : ℚ
  z : ℚ
deriving DecidableEq

/-- `np.eye(4)`. -/
def eye4 : Fin 4 → Fin 4 → ℚ := fun i j => if i = j then 1 else 0

/-- `camera_pose[:3, 3] = camera_translation` (rows 0..2 of column 3). -/
def setTranslationCol (m : Fin 4 → Fin 4 → ℚ) (v : Vec3) : Fin 4 → Fin 4 → ℚ := fun i j =>
  if j = 3 ∧ i ≠ 3 then (if i = 0 then v.x else if i = 1 then v.y else v.z) else m i j

/-- The part of `get_scene_render` (lines 75-107) that is visible outside the
external rendering engine: the camera pose it builds and the state of the
caller's `camera_translation` array after the call (line 88 mutates it in
place: `camera_translation[0] *= -1.0`). -/
structure SceneRenderEffect where
  camera_pose : Fin 4 → Fin 4 → ℚ
  camera_translation : Vec3

/-- Lines 88-90 of `get_scene_render`: negate the horizontal translation in
place, then build the pose from the identity matrix. -/
def get_scene_render (camera_translation : Vec3) : SceneRenderEffect :=
  let ct : Vec3 := ⟨camera_translation.x * (-1), camera_translation.y, camera_translation.z⟩
  ⟨setTranslationCol eye4 ct, ct⟩

unseal Nat.gcd Rat.add Rat.mul Rat.inv Rat.sub in
/-- Claim C1: the code does NOT promote a single 2-d depth ndarray to a batch
of size one.  A fully opaque 2×1 red layer with depth column (2, 1): passed
as a one-element list the composite is the layer everywhere, passed as the
bare ndarray the trailing-newaxis reshape makes `min(axis=0)` a per-column
row minimum, the depth mask fails at every pixel, and the background shows
through — the two calls differ. -/
theorem c1_single_depth_divergence :
    (combine_scene_image (.single [[⟨255, 0, 0, 255⟩], [⟨255, 0, 0, 255⟩]])
        [[⟨10, 20, 30⟩], [⟨10, 20, 30⟩]]
        (.arrSingle [[CDepth.fin 2], [CDepth.fin 1]])).1 =
      some [[⟨10, 20, 30⟩], [⟨10, 20, 30⟩]] ∧
    (combine_scene_image (.batch [[[⟨255, 0, 0, 255⟩], [⟨255, 0, 0, 255⟩]]])
        [[⟨10, 20, 30⟩], [⟨10, 20, 30⟩]]
        (.listBatch [[[CDepth.fin 2], [CDepth.fin 1]]])).1 =
      some [[⟨255, 0, 0⟩], [⟨255, 0, 0⟩]] ∧
    (combine_scene_image (.single [[⟨255, 0, 0, 255⟩], [⟨255, 0, 0, 255⟩]])
        [[⟨10, 20, 30⟩], [⟨10, 20, 30⟩]]
        (.arrSingle [[CDepth.fin 2], [CDepth.fin 1]])).1 ≠
      (combine_scene_image (.batch [[[⟨255, 0, 0, 255⟩], [⟨255, 0, 0, 255⟩]]])
        [[⟨10, 20, 30⟩], [⟨10, 20, 30⟩]]
        (.listBatch [[[CDepth.fin 2], [CDepth.fin 1]]])).1 := by
  refine ⟨by decide, by decide, by decide⟩

/-! ### Helper lemmas -/

theorem QRGB.zero_add (p : QRGB) : QRGB.add ⟨0, 0, 0⟩ p = p := by
  cases p; simp [QRGB.add]

theorem QRGB.add_zero (p : QRGB) : QRGB.add p ⟨0, 0, 0⟩ = p := by
  cases p; simp [QRGB.add]

theorem QRGB.add_left_comm (p q s : QRGB) :
    QRGB.add p (QRGB.add q s) = QRGB.add q (QRGB.add p s) := by
  cases p; cases q; cases s
  simp only [QRGB.add, QRGB.mk.injEq]
  refine ⟨by ring, by ring, by ring⟩

theorem CDepth.minD_inf_right (x : CDepth) : CDepth.minD x .inf = x := by
  cases x <;> rfl

theorem CDepth.minD_left_comm (a b c : CDepth) :
    CDepth.minD a (CDepth.minD b c) = CDepth.minD b (CDepth.minD a c) := by
  cases a <;> cases b <;> cases c <;> simp [CDepth.minD, min_left_comm, min_comm]

theorem CDepth.minD_eq_inf_iff (a b : CDepth) :
    CDepth.minD a b = .inf ↔ a = .inf ∧ b = .inf := by
  cases a <;> cases b <;> simp [CDepth.minD]

theorem foldr_minD_ne_inf (l : List CDepth) (x : ℚ) (hx : CDepth.fin x ∈ l) :
    l.foldr CDepth.minD .inf ≠ .inf := by
  induction l with
  | nil => cases hx
  | cons a t ih =>
      intro hcon
      rw [List.foldr_cons, CDepth.minD_eq_inf_iff] at hcon
      rcases List.mem_cons.mp hx with h | h
      · rw [← h] at hcon; exact CDepth.noConfusion hcon.1
      · exact ih h hcon.2

theorem foldr_of_perm {α β : Type} (f : α → β → β)
    (hf : ∀ a b c, f a (f b c) = f b (f a c)) {l₁ l₂ : List α} (h : l₁.Perm l₂) (b : β) :
    l₁.foldr f b = l₂.foldr f b := by
  induction h with
  | nil => rfl
  | cons x _ ih => simp only [List.foldr_cons, ih]
  | swap x y l => simp only [List.foldr_cons]; exact (hf y x _).symm ▸ hf y x _
  | trans _ _ ih₁ ih₂ => exact ih₁.trans ih₂

theorem any_of_perm {α : Type} (p : α → Bool) {l₁ l₂ : List α} (h : l₁.Perm l₂) :
    l₁.any p = l₂.any p := by
  induction h with
  | nil => rfl
  | cons x _ ih => simp [List.any_cons, ih]
  | swap x y l => cases hp : p x <;> cases hq : p y <;> simp [List.any_cons, hp, hq]
  | trans _ _ ih₁ ih₂ => exact ih₁.trans ih₂

theorem bIdx_of_lt {dim i : ℕ} (h : i < dim) : bIdx dim i = i := by
  unfold bIdx
  split
  · omega
  · rfl

theorem ratAt_buildRaster {α : Type} (h w : ℕ) (f : ℕ → ℕ → α) (d : α) (i j : ℕ)
    (hi : i < h) (hj : j < w) : ratAt (buildRaster h w f) d i j = f i j := by
  unfold ratAt buildRaster
  have hi' : i < ((List.range h).map fun i => (List.range w).map fun j => f i j).length := by
    simpa using hi
  rw [List.getD_eq_getElem _ _ hi', List.getElem_map, List.getElem_range]
  have hj' : j < ((List.range w).map fun t => f i t).length := by simpa using hj
  rw [List.getD_eq_getElem _ _ hj', List.getElem_map, List.getElem_range]

theorem sentinelFix_nil : sentinelFix [] = [] := rfl

theorem getD_sentinelFix (ds : List (Raster CDepth)) (k : ℕ) :
    (ds.map sentinelFix).getD k [] = sentinelFix (ds.getD k []) := by
  induction ds generalizing k with
  | nil => simp [List.getD_nil, sentinelFix_nil]
  | cons a t ih =>
      cases k with
      | zero => simp [List.getD_cons_zero]
      | succ n => simpa [List.getD_cons_succ] using ih n

theorem getD_map_correctDepth (row : List CDepth) (j : ℕ) :
    (row.map correctDepth).getD j .inf = correctDepth (row.getD j .inf) := by
  induction row generalizing j with
  | nil => simp [List.getD_nil, correctDepth]
  | cons a t ih =>
      cases j with
      | zero => simp [List.getD_cons_zero]
      | succ n => simpa [List.getD_cons_succ] using ih n

theorem getD_rows_correctDepth (D : Raster CDepth) (i : ℕ) :
    (D.map fun row => row.map correctDepth).getD i [] = (D.getD i []).map correctDepth := by
  induction D generalizing i with
  | nil => simp [List.getD_nil]
  | cons a t ih =>
      cases i with
      | zero => simp [List.getD_cons_zero]
      | succ n => simpa [List.getD_cons_succ] using ih n

theorem ratAt_sentinelFix (D : Raster CDepth) (i j : ℕ) :
    ratAt (sentinelFix D) .inf i j = correctDepth (ratAt D .inf i j) := by
  unfold ratAt sentinelFix
  rw [getD_rows_correctDepth]
  exact getD_map_correctDepth _ j

theorem if_bool_true {α : Type} (a b : α) : (if (true : Bool) then a else b) = a := rfl

theorem if_bool_false {α : Type} (a b : α) : (if (false : Bool) then a else b) = b := rfl

theorem clip01_zero : clip01 0 = 0 := by
  unfold clip01; norm_num

theorem clip01_one : clip01 1 = 1 := by
  unfold clip01; norm_num

theorem clip01_norm (c : ℕ) (hc : c ≤ 255) : clip01 ((c : ℚ) / 255) = (c : ℚ) / 255 := by
  unfold clip01
  rw [max_eq_left (by positivity), min_eq_left ?hle]
  rw [div_le_one (by norm_num : (0 : ℚ) < 255)]
  exact_mod_cast hc

theorem toByte_norm (c : ℕ) (hc : c ≤ 255) : toByte ((c : ℚ) / 255) = c := by
  unfold toByte
  rw [div_mul_cancel₀ _ (by norm_num : (255 : ℚ) ≠ 0), Int.floor_natCast, Int.toNat_natCast]
  exact Nat.mod_eq_of_lt (by omega)

theorem pixelOut_layer (p : RGBA) (bgp : RGB) (hr : p.r ≤ 255) (hg : p.g ≤ 255)
    (hb : p.b ≤ 255) : pixelOut (normColor p) true bgp = ⟨p.r, p.g, p.b⟩ := by
  unfold pixelOut normColor
  simp only [if_bool_true, if_true, eq_self_iff_true, add_zero]
  rw [clip01_norm _ hr, clip01_norm _ hg, clip01_norm _ hb,
    toByte_norm _ hr, toByte_norm _ hg, toByte_norm _ hb]

theorem pixelOut_bg (bgp : RGB) (hr : bgp.r ≤ 255) (hg : bgp.g ≤ 255) (hb : bgp.b ≤ 255) :
    pixelOut ⟨0, 0, 0⟩ false bgp = bgp := by
  unfold pixelOut
  simp only [if_bool_false, clip01_zero, zero_add]
  rw [toByte_norm _ hr, toByte_norm _ hg, toByte_norm _ hb]

theorem assemble_some (h w : ℕ) (bg : Raster RGB) (sumAt : ℕ → ℕ → QRGB)
    (anyAt : ℕ → ℕ → Bool) (hbh : rheight bg = h) (hbw : rwidth bg = w) :
    assemble h w bg sumAt anyAt =
      some (buildRaster h w fun i j =>
        pixelOut (sumAt (bIdx h i) (bIdx w j)) (anyAt (bIdx h i) (bIdx w j))
          (ratAt bg ⟨0, 0, 0⟩ (bIdx h i) (bIdx w j))) := by
  unfold assemble
  rw [hbh, hbw]
  have hbc : bcastDim h h = some h := by unfold bcastDim; rw [if_pos rfl]
  have hwc : bcastDim w w = some w := by unfold bcastDim; rw [if_pos rfl]
  rw [hbc, hwc]

theorem composite_entry (layers : List (Raster RGBA)) (bg : Raster RGB)
    (masksAt : ℕ → ℕ → List Bool) {h w i j : ℕ}
    (hh : rheight (layers.headD []) = h) (hw : rwidth (layers.headD []) = w)
    (hbh : rheight bg = h) (hbw : rwidth bg = w) (hi : i < h) (hj : j < w) :
    ∃ R, composite layers bg masksAt = some R ∧
      ratAt R ⟨0, 0, 0⟩ i j =
        pixelOut (sumBodies layers (masksAt i j) i j) ((masksAt i j).any id)
          (ratAt bg ⟨0, 0, 0⟩ i j) := by
  unfold composite
  rw [hh, hw, assemble_some h w bg _ _ hbh hbw]
  refine ⟨_, rfl, ?_⟩
  rw [ratAt_buildRaster h w _ _ i j hi hj, bIdx_of_lt hi, bIdx_of_lt hj]

theorem sumBodies_cons (L : Raster RGBA) (ls : List (Raster RGBA)) (m : Bool) (ms : List Bool)
    (i j : ℕ) :
    sumBodies (L :: ls) (m :: ms) i j =
      QRGB.add (if m then normColor (ratAt L ⟨0, 0, 0, 0⟩ i j) else ⟨0, 0, 0⟩)
        (sumBodies ls ms i j) := rfl

theorem sumBodies_allFalse (layers : List (Raster RGBA)) (masks : List Bool) (i j : ℕ)
    (hm : ∀ m, masks.getD m false = false) : sumBodies layers masks i j = ⟨0, 0, 0⟩ := by
  induction layers generalizing masks with
  | nil => rfl
  | cons L ls ih =>
      cases masks with
      | nil => rfl
      | cons m ms =>
          have h0 : m = false := by have := hm 0; rwa [List.getD_cons_zero] at this
          have ht : ∀ t, ms.getD t false = false := fun t => by
            have := hm (t + 1); rwa [List.getD_cons_succ] at this
          rw [sumBodies_cons, h0, if_bool_false, ih ms ht]
          exact QRGB.add_zero _

theorem sumBodies_uniqueTrue (layers : List (Raster RGBA)) :
    ∀ (masks : List Bool) (k i j : ℕ), masks.getD k false = true →
      (∀ m, m ≠ k → masks.getD m false = false) → k < layers.length →
      sumBodies layers masks i j = normColor (ratAt (layers.getD k []) ⟨0, 0, 0, 0⟩ i j) := by
  induction layers with
  | nil => intro masks k i j _ _ hlt; exact absurd hlt (by simp)
  | cons L ls ih =>
      intro masks k i j hk hother hlt
      cases masks with
      | nil => rw [List.getD_nil] at hk; exact Bool.noConfusion hk
      | cons m ms =>
          cases k with
          | zero =>
              rw [List.getD_cons_zero] at hk
              rw [sumBodies_cons, hk, if_bool_true, List.getD_cons_zero]
              have ht : ∀ t, ms.getD t false = false := fun t => by
                have := hother (t + 1) (by omega); rwa [List.getD_cons_succ] at this
              rw [sumBodies_allFalse ls ms i j ht]
              exact QRGB.add_zero _
          | succ n =>
              have h0 : m = false := by
                have := hother 0 (by omega); rwa [List.getD_cons_zero] at this
              rw [sumBodies_cons, h0, if_bool_false, List.getD_cons_succ]
              rw [List.getD_cons_succ] at hk
              have hother' : ∀ t, t ≠ n → ms.getD t false = false := fun t ht => by
                have := hother (t + 1) (by omega); rwa [List.getD_cons_succ] at this
              have hlt' : n < ls.length := by
                rw [List.length_cons] at hlt; omega
              rw [ih ms n i j hk hother' hlt']
              exact QRGB.zero_add _

theorem anyId_allFalse (masks : List Bool) (hm : ∀ m, masks.getD m false = false) :
    masks.any id = false := by
  induction masks with
  | nil => rfl
  | cons m ms ih =>
      have h0 : m = false := by have := hm 0; rwa [List.getD_cons_zero] at this
      have ht : ∀ t, ms.getD t false = false := fun t => by
        have := hm (t + 1); rwa [List.getD_cons_succ] at this
      simp [List.any_cons, h0, ih ht]

theorem anyId_getD_true (masks : List Bool) (k : ℕ) (hk : masks.getD k false = true) :
    masks.any id = true := by
  induction masks generalizing k with
  | nil => rw [List.getD_nil] at hk; exact Bool.noConfusion hk
  | cons m ms ih =>
      cases k with
      | zero =>
          rw [List.getD_cons_zero] at hk
          simp [List.any_cons, hk]
      | succ n =>
          rw [List.getD_cons_succ] at hk
          simp [List.any_cons, ih n hk]

theorem alphaValid_of_pos (p : RGBA) (h : 0 < p.a) : alphaValid p = true :=
  decide_eq_true (div_pos (by exact_mod_cast h) (by norm_num))

theorem alphaValid_of_zero (p : RGBA) (h : p.a = 0) : alphaValid p = false :=
  decide_eq_false (by rw [h]; norm_num)

theorem combine_batch_listBatch (layers : List (Raster RGBA)) (bg : Raster RGB)
    (ds : List (Raster CDepth)) (hlen : layers.length ≤ ds.length) :
    (combine_scene_image (.batch layers) bg (.listBatch ds)).1 =
      composite layers bg (effMasksDepth layers (ds.map sentinelFix)) := by
  simp [combine_scene_image, layersOf, depthGuard, masksAtOf, hlen]

theorem combine_batch_nodepth (layers : List (Raster RGBA)) (bg : Raster RGB) :
    (combine_scene_image (.batch layers) bg .nodepth).1 =
      composite layers bg (effMasksNoDepth layers) := rfl

/-! ### Claim theorems -/

/-- Claim C3: in depth mode with a batch of two layers A and B both covering
pixel `(i, j)`, where A's depth there is positive and strictly smaller than
B's, the composite pixel equals A's color bytes — not B's and not a blend. -/
theorem c3_depth_order_winner (A B : Raster RGBA) (DA DB : Raster CDepth) (bg : Raster RGB)
    (h w i j : ℕ) (dA dB : ℚ)
    (hh : rheight A = h) (hw : rwidth A = w)
    (hhB : rheight B = h) (hwB : rwidth B = w)
    (hhDA : rheight DA = h) (hwDA : rwidth DA = w)
    (hhDB : rheight DB = h) (hwDB : rwidth DB = w)
    (hbh : rheight bg = h) (hbw : rwidth bg = w)
    (hi : i < h) (hj : j < w)
    (hdA : ratAt DA .inf i j = .fin dA) (hdB : ratAt DB .inf i j = .fin dB)
    (hpos : 0 < dA) (hlt : dA < dB)
    (hcA : 0 < (ratAt A ⟨0, 0, 0, 0⟩ i j).a) (hcB : 0 < (ratAt B ⟨0, 0, 0, 0⟩ i j).a)
    (hr : (ratAt A ⟨0, 0, 0, 0⟩ i j).r ≤ 255) (hg : (ratAt A ⟨0, 0, 0, 0⟩ i j).g ≤ 255)
    (hbb : (ratAt A ⟨0, 0, 0, 0⟩ i j).b ≤ 255) :
    ∃ R, (combine_scene_image (.batch [A, B]) bg (.listBatch [DA, DB])).1 = some R ∧
      ratAt R ⟨0, 0, 0⟩ i j =
        ⟨(ratAt A ⟨0, 0, 0, 0⟩ i j).r, (ratAt A ⟨0, 0, 0, 0⟩ i j).g,
         (ratAt A ⟨0, 0, 0, 0⟩ i j).b⟩ := by
  rw [combine_batch_listBatch _ _ _ (by simp)]
  have hDA' : ratAt (sentinelFix DA) .inf i j = .fin dA := by
    rw [ratAt_sentinelFix, hdA]
    simp only [correctDepth]
    rw [if_neg hpos.ne']
  have hDB' : ratAt (sentinelFix DB) .inf i j = .fin dB := by
    rw [ratAt_sentinelFix, hdB]
    simp only [correctDepth]
    rw [if_neg (hpos.trans hlt).ne']
  have hmasks : effMasksDepth [A, B] ([DA, DB].map sentinelFix) i j = [true, false] := by
    unfold effMasksDepth minDepthAt
    simp only [List.map_cons, List.map_nil, List.zip_cons_cons, List.zip_nil_right,
      List.foldr_cons, List.foldr_nil, hDA', hDB', CDepth.minD_inf_right]
    simp [CDepth.minD, min_eq_left hlt.le, hlt.ne',
      alphaValid_of_pos _ hcA, alphaValid_of_pos _ hcB]
  obtain ⟨R, hR, hentry⟩ :=
    composite_entry [A, B] bg (effMasksDepth [A, B] ([DA, DB].map sentinelFix))
      hh hw hbh hbw hi hj
  refine ⟨R, hR, ?_⟩
  rw [hentry, hmasks]
  have hsum : sumBodies [A, B] [true, false] i j = normColor (ratAt A ⟨0, 0, 0, 0⟩ i j) := by
    rw [sumBodies_cons, if_bool_true, sumBodies_cons, if_bool_false]
    show QRGB.add _ (QRGB.add ⟨0, 0, 0⟩ ⟨0, 0, 0⟩) = _
    rw [QRGB.zero_add]
    exact QRGB.add_zero _
  rw [hsum]
  have hany : ([true, false] : List Bool).any id = true := rfl
  rw [hany]
  exact pixelOut_layer _ _ hr hg hbb

/-- Witness for C3 at a concrete 1×1 scene: layer A (depth 1) beats layer B
(depth 2) and the output pixel is A's color. -/
theorem c3_depth_order_winner_witness :
    ∃ R, (combine_scene_image (.batch [[[⟨200, 10, 20, 255⟩]], [[⟨5, 6, 7, 255⟩]]])
        [[⟨1, 2, 3⟩]] (.listBatch [[[CDepth.fin 1]], [[CDepth.fin 2]]])).1 = some R ∧
      ratAt R ⟨0, 0, 0⟩ 0 0 = ⟨200, 10, 20⟩ :=
  c3_depth_order_winner _ _ _ _ _ 1 1 0 0 1 2 rfl rfl rfl rfl rfl rfl rfl rfl rfl rfl
    (by decide) (by decide) (by decide) (by decide) (by decide) (by decide)
    (by decide) (by decide) (by decide) (by decide) (by decide)

theorem toByte_one : toByte 1 = 255 := by
  unfold toByte
  rw [one_mul, show (255 : ℚ) = ((255 : ℕ) : ℚ) by norm_num, Int.floor_natCast,
    Int.toNat_natCast]

theorem toByte_zero : toByte 0 = 0 := by
  unfold toByte
  rw [zero_mul, Int.floor_zero]
  rfl

theorem getD_of_le {α : Type} (l : List α) (d : α) (n : ℕ) (h : l.length ≤ n) :
    l.getD n d = d := by
  induction l generalizing n with
  | nil => simp [List.getD_nil]
  | cons a t ih =>
      cases n with
      | zero => simp at h
      | succ m =>
          rw [List.getD_cons_succ]
          exact ih m (by simpa using h)

/-- Claim C5: with depth disabled, two fully opaque overlapping layers whose
bytes at a shared pixel are (255,0,0,255) and (0,255,0,255) — normalized RGB
(1,0,0) and (0,1,0) — give the clipped sum (1,1,0) there, i.e. output bytes
(255,255,0), and every channel stays within the display range. -/
theorem c5_overflow_clamp (A B : Raster RGBA) (bg : Raster RGB) (h w i j : ℕ)
    (hh : rheight A = h) (hw : rwidth A = w)
    (hhB : rheight B = h) (hwB : rwidth B = w)
    (hbh : rheight bg = h) (hbw : rwidth bg = w)
    (hi : i < h) (hj : j < w)
    (hA : ratAt A ⟨0, 0, 0, 0⟩ i j = ⟨255, 0, 0, 255⟩)
    (hB : ratAt B ⟨0, 0, 0, 0⟩ i j = ⟨0, 255, 0, 255⟩) :
    ∃ R, (combine_scene_image (.batch [A, B]) bg .nodepth).1 = some R ∧
      ratAt R ⟨0, 0, 0⟩ i j = ⟨255, 255, 0⟩ ∧
      (ratAt R ⟨0, 0, 0⟩ i j).r ≤ 255 ∧ (ratAt R ⟨0, 0, 0⟩ i j).g ≤ 255 ∧
      (ratAt R ⟨0, 0, 0⟩ i j).b ≤ 255 := by
  rw [combine_batch_nodepth]
  have hmasks : effMasksNoDepth [A, B] i j = [true, true] := by
    unfold effMasksNoDepth
    simp only [List.map_cons, List.map_nil]
    rw [alphaValid_of_pos _ (by rw [hA]; decide), alphaValid_of_pos _ (by rw [hB]; decide)]
  obtain ⟨R, hR, hentry⟩ :=
    composite_entry [A, B] bg (effMasksNoDepth [A, B]) hh hw hbh hbw hi hj
  have hE : ratAt R ⟨0, 0, 0⟩ i j = ⟨255, 255, 0⟩ := by
    rw [hentry, hmasks]
    have hsum : sumBodies [A, B] [true, true] i j = ⟨1, 1, 0⟩ := by
      rw [sumBodies_cons, if_bool_true, sumBodies_cons, if_bool_true, hA, hB]
      show QRGB.add (normColor ⟨255, 0, 0, 255⟩)
        (QRGB.add (normColor ⟨0, 255, 0, 255⟩) ⟨0, 0, 0⟩) = ⟨1, 1, 0⟩
      unfold normColor QRGB.add
      norm_num
    rw [hsum]
    have hany : ([true, true] : List Bool).any id = true := rfl
    rw [hany]
    unfold pixelOut
    simp only [if_bool_true, if_true, eq_self_iff_true, add_zero]
    rw [clip01_one, clip01_zero, toByte_one, toByte_zero]
  exact ⟨R, hR, hE, by simp [hE], by simp [hE], by simp [hE]⟩

/-- Witness for C5 at a concrete 1×1 scene: red over green with no depth
gives yellow (255,255,0). -/
theorem c5_overflow_clamp_witness :
    ∃ R, (combine_scene_image (.batch [[[⟨255, 0, 0, 255⟩]], [[⟨0, 255, 0, 255⟩]]])
        [[⟨9, 9, 9⟩]] .nodepth).1 = some R ∧
      ratAt R ⟨0, 0, 0⟩ 0 0 = ⟨255, 255, 0⟩ ∧
      (ratAt R ⟨0, 0, 0⟩ 0 0).r ≤ 255 ∧ (ratAt R ⟨0, 0, 0⟩ 0 0).g ≤ 255 ∧
      (ratAt R ⟨0, 0, 0⟩ 0 0).b ≤ 255 :=
  c5_overflow_clamp _ _ _ 1 1 0 0 rfl rfl rfl rfl rfl rfl (by decide) (by decide) rfl rfl

/-- Claim C4: sentinel depth entries (zero) are turned into infinity per layer
before the per-pixel minimum is taken, so at a pixel where layer `k` has raw
depth 0 while some other layer `m` covers the pixel with positive depth, the
corrected depth of layer `k` is infinity, its depth-visibility comparison
against the minimum fails, and its effective mask is off. -/
theorem c4_sentinel_never_wins (layers : List (Raster RGBA)) (ds : List (Raster CDepth))
    (i j k m : ℕ) (dm : ℚ)
    (hk0 : ratAt (ds.getD k []) .inf i j = .fin 0)
    (hm : m < ds.length)
    (hdm : ratAt (ds.getD m []) .inf i j = .fin dm)
    (hpos : 0 < dm)
    (hcov : 0 < (ratAt (layers.getD m []) ⟨0, 0, 0, 0⟩ i j).a) :
    ratAt ((ds.map sentinelFix).getD k []) .inf i j = .inf ∧
    decide (ratAt ((ds.map sentinelFix).getD k []) .inf i j =
      minDepthAt (ds.map sentinelFix) i j) = false ∧
    (effMasksDepth layers (ds.map sentinelFix) i j).getD k false = false := by
  have hfix : ratAt ((ds.map sentinelFix).getD k []) .inf i j = .inf := by
    rw [getD_sentinelFix, ratAt_sentinelFix, hk0]
    simp [correctDepth]
  have hmind : minDepthAt (ds.map sentinelFix) i j ≠ .inf := by
    unfold minDepthAt
    apply foldr_minD_ne_inf _ dm
    have hlen : m < ((ds.map sentinelFix).map fun D => ratAt D .inf i j).length := by
      simpa using hm
    have hval : ((ds.map sentinelFix).map fun D => ratAt D .inf i j)[m] = .fin dm := by
      rw [List.getElem_map, List.getElem_map]
      rw [ratAt_sentinelFix, show ds[m] = ds.getD m [] from (List.getD_eq_getElem ds [] hm).symm,
        hdm]
      simp [correctDepth, hpos.ne']
    exact hval ▸ List.getElem_mem hlen
  have hdec : decide (ratAt ((ds.map sentinelFix).getD k []) .inf i j =
      minDepthAt (ds.map sentinelFix) i j) = false := by
    apply decide_eq_false
    intro hcon
    rw [hfix] at hcon
    exact hmind hcon.symm
  refine ⟨hfix, hdec, ?_⟩
  by_cases hkz : k < (layers.zip (ds.map sentinelFix)).length
  · unfold effMasksDepth
    rw [List.getD_eq_getElem _ _ (by simpa using hkz), List.getElem_map, List.getElem_zip]
    have hksz : k < (ds.map sentinelFix).length := by
      rw [List.length_zip] at hkz; omega
    have hgd : (ds.map sentinelFix)[k] = (ds.map sentinelFix).getD k [] :=
      (List.getD_eq_getElem _ _ hksz).symm
    simp only [hgd, hdec, Bool.and_false]
  · unfold effMasksDepth
    exact getD_of_le _ _ _ (by simpa using Nat.le_of_not_lt hkz)

/-- Witness for C4 at a concrete 1×1 scene: layer 0 has sentinel depth 0,
layer 1 covers the pixel with depth 5; layer 0's corrected depth is infinite,
it loses the depth comparison and its effective mask is off. -/
theorem c4_sentinel_never_wins_witness :
    ratAt (([[[CDepth.fin 0]], [[CDepth.fin 5]]].map sentinelFix).getD 0 []) .inf 0 0 =
      .inf ∧
    decide (ratAt (([[[CDepth.fin 0]], [[CDepth.fin 5]]].map sentinelFix).getD 0 []) .inf 0 0 =
      minDepthAt ([[[CDepth.fin 0]], [[CDepth.fin 5]]].map sentinelFix) 0 0) = false ∧
    (effMasksDepth [[[⟨1, 1, 1, 255⟩]], [[⟨2, 2, 2, 255⟩]]]
      ([[[CDepth.fin 0]], [[CDepth.fin 5]]].map sentinelFix) 0 0).getD 0 false = false :=
  c4_sentinel_never_wins [[[⟨1, 1, 1, 255⟩]], [[⟨2, 2, 2, 255⟩]]]
    [[[CDepth.fin 0]], [[CDepth.fin 5]]] 0 0 0 1 5
    (by decide) (by decide) (by decide) (by decide) (by decide)

/-- Claim C9: when `scene_depth` is passed as a numpy array (a single 2-d
array or a 3-d batch), the sentinel replacement of line 142 is performed in
place on the caller's array — after the call every entry that was 0 reads as
infinity and all other entries are unchanged — while a depth argument passed
as a Python list is copied by `np.asarray` and the caller's list is left
untouched. -/
theorem c9_depth_inplace_mutation (scene : SceneArg) (bg : Raster RGB) (d D : Raster CDepth)
    (ds : List (Raster CDepth)) (i j : ℕ) :
    ((combine_scene_image scene bg (.arrSingle d)).2 = .arrSingle (sentinelFix d)) ∧
    ((combine_scene_image scene bg (.arrBatch ds)).2 = .arrBatch (ds.map sentinelFix)) ∧
    ((combine_scene_image scene bg (.listBatch ds)).2 = .listBatch ds) ∧
    (ratAt D .inf i j = .fin 0 → ratAt (sentinelFix D) .inf i j = .inf) ∧
    (ratAt D .inf i j ≠ .fin 0 → ratAt (sentinelFix D) .inf i j = ratAt D .inf i j) := by
  refine ⟨rfl, rfl, rfl, ?_, ?_⟩
  · intro h0
    rw [ratAt_sentinelFix, h0]
    simp [correctDepth]
  · intro hne
    rw [ratAt_sentinelFix]
    cases hD : ratAt D .inf i j with
    | inf => rfl
    | fin q =>
        have hq : q ≠ 0 := by
          rw [hD] at hne
          exact fun hz => hne (by rw [hz])
        simp [correctDepth, hq]

/-- Witness for C9: a 1×1 depth array with entry 0 reads as infinity after
the call, and an entry 7 is left unchanged; the list-passed argument is
returned unchanged. -/
theorem c9_depth_inplace_mutation_witness :
    ((combine_scene_image (.batch [[[⟨0, 0, 0, 0⟩]]]) [[⟨0, 0, 0⟩]]
        (.arrSingle [[CDepth.fin 0]])).2 = .arrSingle (sentinelFix [[CDepth.fin 0]])) ∧
    ((combine_scene_image (.batch [[[⟨0, 0, 0, 0⟩]]]) [[⟨0, 0, 0⟩]]
        (.arrBatch [[[CDepth.fin 0]]])).2 = .arrBatch ([[[CDepth.fin 0]]].map sentinelFix)) ∧
    ((combine_scene_image (.batch [[[⟨0, 0, 0, 0⟩]]]) [[⟨0, 0, 0⟩]]
        (.listBatch [[[CDepth.fin 0]]])).2 = .listBatch [[[CDepth.fin 0]]]) ∧
    (ratAt [[CDepth.fin 0]] .inf 0 0 = .fin 0 →
      ratAt (sentinelFix [[CDepth.fin 0]]) .inf 0 0 = .inf) ∧
    (ratAt [[CDepth.fin 7]] .inf 0 0 ≠ .fin 0 →
      ratAt (sentinelFix [[CDepth.fin 7]]) .inf 0 0 = ratAt [[CDepth.fin 7]] .inf 0 0) := by
  have h1 := c9_depth_inplace_mutation (.batch [[[⟨0, 0, 0, 0⟩]]]) [[⟨0, 0, 0⟩]]
    [[CDepth.fin 0]] [[CDepth.fin 0]] [[[CDepth.fin 0]]] 0 0
  have h2 := c9_depth_inplace_mutation (.batch [[[⟨0, 0, 0, 0⟩]]]) [[⟨0, 0, 0⟩]]
    [[CDepth.fin 0]] [[CDepth.fin 7]] [[[CDepth.fin 0]]] 0 0
  exact ⟨h1.1, h1.2.1, h1.2.2.1, fun hz => h1.2.2.2.1 (by decide), fun hnz => h2.2.2.2.2 (by decide)⟩

/-- Claim C10: `get_scene_render` negates the first (horizontal) component of
the caller's `camera_translation` in place before building the camera pose:
the returned state holds the sign-flipped vector, the pose's translation
column is (-x, y, z), and a second call reusing the mutated vector builds a
pose with the opposite horizontal translation (+x). -/
theorem c10_camera_translation_negated (ct : Vec3) :
    (get_scene_render ct).camera_translation = ⟨-ct.x, ct.y, ct.z⟩ ∧
    (get_scene_render ct).camera_pose 0 3 = -ct.x ∧
    (get_scene_render ct).camera_pose 1 3 = ct.y ∧
    (get_scene_render ct).camera_pose 2 3 = ct.z ∧
    (get_scene_render ((get_scene_render ct).camera_translation)).camera_pose 0 3 = ct.x := by
  refine ⟨?_, ?_, ?_, ?_, ?_⟩ <;>
    simp [get_scene_render, setTranslationCol, eye4, mul_neg_one]

theorem buildRaster_congr {α : Type} (h w : ℕ) (f g : ℕ → ℕ → α)
    (hfg : ∀ i j, i < h → j < w → f i j = g i j) :
    buildRaster h w f = buildRaster h w g := by
  unfold buildRaster
  apply List.map_congr_left
  intro i hi
  apply List.map_congr_left
  intro j hj
  exact hfg i j (List.mem_range.mp hi) (List.mem_range.mp hj)

theorem buildRaster_ratAt {α : Type} (R : Raster α) (d : α) (w : ℕ)
    (hw : ∀ row ∈ R, row.length = w) :
    buildRaster (rheight R) w (fun i j => ratAt R d i j) = R := by
  unfold buildRaster rheight
  apply List.ext_getElem
  · simp
  · intro i h1 h2
    rw [List.getElem_map, List.getElem_range]
    apply List.ext_getElem
    · simpa using (hw R[i] (List.getElem_mem h2)).symm
    · intro j hj1 hj2
      rw [List.getElem_map, List.getElem_range]
      show (R.getD i []).getD j d = R[i][j]
      rw [List.getD_eq_getElem _ _ h2, List.getD_eq_getElem _ _ hj2]

theorem getD_single_false : ∀ m, ([false] : List Bool).getD m false = false := by
  intro m
  cases m with
  | zero => rfl
  | succ n => rw [List.getD_cons_succ, List.getD_nil]

theorem alpha_zero_everywhere (L : Raster RGBA)
    (hb : ∀ row ∈ L, ∀ p ∈ row, p.a = 0) : ∀ i j, (ratAt L ⟨0, 0, 0, 0⟩ i j).a = 0 := by
  intro i j
  unfold ratAt
  by_cases hi : i < L.length
  · rw [List.getD_eq_getElem _ _ hi]
    by_cases hj : j < L[i].length
    · rw [List.getD_eq_getElem _ _ hj]
      exact hb L[i] (List.getElem_mem hi) _ (List.getElem_mem hj)
    · rw [getD_of_le _ _ _ (Nat.le_of_not_lt hj)]
  · rw [getD_of_le _ _ _ (Nat.le_of_not_lt hi), List.getD_nil]

/-- Claim C6: a layer whose alpha channel is zero at every pixel contributes
nothing: compositing the batch made of it alone (no depth) reproduces the
background image exactly, and in any batch (either mode) its effective mask
is off at every pixel, so it never marks a pixel as inside the body mask. -/
theorem c6_no_coverage_identity (L : Raster RGBA) (bg : Raster RGB)
    (hα : ∀ i j, (ratAt L ⟨0, 0, 0, 0⟩ i j).a = 0)
    (hh : rheight L = rheight bg)
    (hwidth : rwidth bg = rwidth L)
    (hw : ∀ row ∈ bg, row.length = rwidth L)
    (hb : ∀ i j, i < rheight bg → j < rwidth bg →
      (ratAt bg ⟨0, 0, 0⟩ i j).r ≤ 255 ∧ (ratAt bg ⟨0, 0, 0⟩ i j).g ≤ 255 ∧
      (ratAt bg ⟨0, 0, 0⟩ i j).b ≤ 255) :
    (combine_scene_image (.batch [L]) bg .nodepth).1 = some bg ∧
    (∀ (layers : List (Raster RGBA)) (k i j : ℕ), layers.getD k [] = L →
      (effMasksNoDepth layers i j).getD k false = false) ∧
    (∀ (layers : List (Raster RGBA)) (ds : List (Raster CDepth)) (k i j : ℕ),
      layers.getD k [] = L →
      (effMasksDepth layers ds i j).getD k false = false) := by
  have hmasksF : ∀ i j, effMasksNoDepth [L] i j = [false] := by
    intro i j
    unfold effMasksNoDepth
    simp only [List.map_cons, List.map_nil]
    rw [alphaValid_of_zero _ (hα i j)]
  refine ⟨?_, ?_, ?_⟩
  · rw [combine_batch_nodepth]
    show assemble (rheight L) (rwidth L) bg
      (fun i j => sumBodies [L] (effMasksNoDepth [L] i j) i j)
      (fun i j => (effMasksNoDepth [L] i j).any id) = some bg
    rw [assemble_some _ _ bg _ _ hh.symm hwidth]
    congr 1
    have hstep : buildRaster (rheight L) (rwidth L)
        (fun i j =>
          pixelOut (sumBodies [L] (effMasksNoDepth [L] (bIdx (rheight L) i)
              (bIdx (rwidth L) j)) (bIdx (rheight L) i) (bIdx (rwidth L) j))
            ((effMasksNoDepth [L] (bIdx (rheight L) i) (bIdx (rwidth L) j)).any id)
            (ratAt bg ⟨0, 0, 0⟩ (bIdx (rheight L) i) (bIdx (rwidth L) j))) =
        buildRaster (rheight L) (rwidth L) (fun i j => ratAt bg ⟨0, 0, 0⟩ i j) := by
      apply buildRaster_congr
      intro i j hi hj
      rw [hmasksF]
      rw [sumBodies_allFalse _ _ _ _ getD_single_false]
      have hibg : i < rheight bg := by rw [← hh]; exact hi
      have hjbg : j < rwidth bg := by rw [hwidth]; exact hj
      rw [bIdx_of_lt hi, bIdx_of_lt hj]
      have hany : ([false] : List Bool).any id = false := rfl
      rw [hany]
      obtain ⟨h1, h2, h3⟩ := hb i j hibg hjbg
      exact pixelOut_bg _ h1 h2 h3
    rw [hstep, show rheight L = rheight bg from hh]
    exact buildRaster_ratAt bg ⟨0, 0, 0⟩ _ hw
  · intro layers k i j hk
    by_cases hklt : k < layers.length
    · unfold effMasksNoDepth
      rw [List.getD_eq_getElem _ _ (by simpa using hklt), List.getElem_map]
      rw [show layers[k] = L from (List.getD_eq_getElem layers [] hklt).symm.trans hk]
      exact alphaValid_of_zero _ (hα i j)
    · unfold effMasksNoDepth
      exact getD_of_le _ _ _ (by simpa using Nat.le_of_not_lt hklt)
  · intro layers ds k i j hk
    by_cases hklt : k < (layers.zip ds).length
    · unfold effMasksDepth
      rw [List.getD_eq_getElem _ _ (by simpa using hklt), List.getElem_map, List.getElem_zip]
      have hkl : k < layers.length := by
        rw [List.length_zip] at hklt; omega
      rw [show layers[k] = L from (List.getD_eq_getElem layers [] hkl).symm.trans hk]
      rw [alphaValid_of_zero _ (hα i j), Bool.false_and]
    · unfold effMasksDepth
      exact getD_of_le _ _ _ (by simpa using Nat.le_of_not_lt hklt)

/-- Witness for C6 at a concrete 1×1 scene: an alpha-0 layer composited over
the background returns the background, and its masks are off. -/
theorem c6_no_coverage_identity_witness :
    (combine_scene_image (.batch [[[⟨3, 4, 5, 0⟩]]]) [[⟨10, 20, 30⟩]] .nodepth).1 =
      some [[⟨10, 20, 30⟩]] ∧
    (∀ (layers : List (Raster RGBA)) (k i j : ℕ), layers.getD k [] = [[⟨3, 4, 5, 0⟩]] →
      (effMasksNoDepth layers i j).getD k false = false) ∧
    (∀ (layers : List (Raster RGBA)) (ds : List (Raster CDepth)) (k i j : ℕ),
      layers.getD k [] = [[⟨3, 4, 5, 0⟩]] →
      (effMasksDepth layers ds i j).getD k false = false) :=
  c6_no_coverage_identity [[⟨3, 4, 5, 0⟩]] [[⟨10, 20, 30⟩]]
    (alpha_zero_everywhere _ (by decide)) rfl rfl (by decide)
    (fun i j hi hj => by
      rcases i with _ | i
      · rcases j with _ | j
        · exact ⟨by decide, by decide, by decide⟩
        · rw [show rwidth [[(⟨10, 20, 30⟩ : RGB)]] = 1 from rfl] at hj
          omega
      · rw [show rheight [[(⟨10, 20, 30⟩ : RGB)]] = 1 from rfl] at hi
        omega)

theorem all_getD_false_of_bounded (l : List Bool) (k : ℕ)
    (hb : ∀ m, m < l.length → m ≠ k → l.getD m false = false) :
    ∀ m, m ≠ k → l.getD m false = false := fun m hm => by
  by_cases h : m < l.length
  · exact hb m h hm
  · exact getD_of_le _ _ _ (Nat.le_of_not_lt h)

unseal Nat.gcd Rat.add Rat.mul Rat.inv Rat.sub in
/-- Claim C2 counterexample: an exact depth tie blends.  Two fully opaque 1×1
layers, red-ish (128,0,0) and green-ish (0,128,0), both at depth 1: both
effective masks are on, the colors are summed, and the output pixel
(128,128,0) is neither layer's color nor the background — the pixel has two
sources, refuting winner-take-all for every call. -/
theorem c2_counterexample_tie_blend :
    (combine_scene_image (.batch [[[⟨128, 0, 0, 255⟩]], [[⟨0, 128, 0, 255⟩]]]) [[⟨10, 20, 30⟩]]
        (.listBatch [[[CDepth.fin 1]], [[CDepth.fin 1]]])).1 = some [[⟨128, 128, 0⟩]] ∧
    (⟨128, 128, 0⟩ : RGB) ≠ ⟨128, 0, 0⟩ ∧ (⟨128, 128, 0⟩ : RGB) ≠ ⟨0, 128, 0⟩ ∧
    (⟨128, 128, 0⟩ : RGB) ≠ ⟨10, 20, 30⟩ := by
  exact ⟨by decide, by decide, by decide, by decide⟩

/-- Claim C2 (amended): at a pixel where at most one effective mask is set,
the output has exactly one source: if no mask is set the pixel is the
background pixel, and if exactly layer `k`'s mask is set the pixel is layer
`k`'s color.  (When two or more masks coincide — an exact depth tie, or
overlapping coverage with depth disabled — the code sums and clips the tied
layers instead, see the counterexample; no pixel is ever left undefined.) -/
theorem c2_amended_unique_winner (layers : List (Raster RGBA)) (ds : List (Raster CDepth))
    (bg : Raster RGB) (h w i j : ℕ)
    (hh : rheight (layers.headD []) = h) (hw : rwidth (layers.headD []) = w)
    (hbh : rheight bg = h) (hbw : rwidth bg = w)
    (hi : i < h) (hj : j < w)
    (hlen : ds.length = layers.length)
    (hbr : (ratAt bg ⟨0, 0, 0⟩ i j).r ≤ 255) (hbg : (ratAt bg ⟨0, 0, 0⟩ i j).g ≤ 255)
    (hbb : (ratAt bg ⟨0, 0, 0⟩ i j).b ≤ 255) :
    ((∀ m, (effMasksDepth layers (ds.map sentinelFix) i j).getD m false = false) →
      ∃ R, (combine_scene_image (.batch layers) bg (.listBatch ds)).1 = some R ∧
        ratAt R ⟨0, 0, 0⟩ i j = ratAt bg ⟨0, 0, 0⟩ i j) ∧
    (∀ k, k < layers.length →
      (effMasksDepth layers (ds.map sentinelFix) i j).getD k false = true →
      (∀ m, m ≠ k → (effMasksDepth layers (ds.map sentinelFix) i j).getD m false = false) →
      (ratAt (layers.getD k []) ⟨0, 0, 0, 0⟩ i j).r ≤ 255 →
      (ratAt (layers.getD k []) ⟨0, 0, 0, 0⟩ i j).g ≤ 255 →
      (ratAt (layers.getD k []) ⟨0, 0, 0, 0⟩ i j).b ≤ 255 →
      ∃ R, (combine_scene_image (.batch layers) bg (.listBatch ds)).1 = some R ∧
        ratAt R ⟨0, 0, 0⟩ i j =
          ⟨(ratAt (layers.getD k []) ⟨0, 0, 0, 0⟩ i j).r,
           (ratAt (layers.getD k []) ⟨0, 0, 0, 0⟩ i j).g,
           (ratAt (layers.getD k []) ⟨0, 0, 0, 0⟩ i j).b⟩) := by
  have hguard : layers.length ≤ ds.length := hlen.ge
  constructor
  · intro hall
    rw [combine_batch_listBatch _ _ _ hguard]
    obtain ⟨R, hR, hentry⟩ :=
      composite_entry layers bg (effMasksDepth layers (ds.map sentinelFix)) hh hw hbh hbw hi hj
    refine ⟨R, hR, ?_⟩
    rw [hentry, sumBodies_allFalse _ _ _ _ hall, anyId_allFalse _ hall]
    exact pixelOut_bg _ hbr hbg hbb
  · intro k hk htrue hother hr hg hb2
    rw [combine_batch_listBatch _ _ _ hguard]
    obtain ⟨R, hR, hentry⟩ :=
      composite_entry layers bg (effMasksDepth layers (ds.map sentinelFix)) hh hw hbh hbw hi hj
    refine ⟨R, hR, ?_⟩
    rw [hentry, sumBodies_uniqueTrue layers _ k i j htrue hother hk,
      anyId_getD_true _ k htrue]
    exact pixelOut_layer _ _ hr hg hb2

unseal Nat.gcd Rat.add Rat.mul Rat.inv Rat.sub in
/-- Witness for C2 (amended) at a concrete 1×1 scene: layer 0 (depth 1) is
the unique winner over layer 1 (depth 2) and the output pixel is layer 0's
color. -/
theorem c2_amended_unique_winner_witness :
    ∃ R, (combine_scene_image (.batch [[[⟨200, 10, 0, 255⟩]], [[⟨0, 50, 60, 255⟩]]])
        [[⟨1, 2, 3⟩]] (.listBatch [[[CDepth.fin 1]], [[CDepth.fin 2]]])).1 = some R ∧
      ratAt R ⟨0, 0, 0⟩ 0 0 = ⟨200, 10, 0⟩ :=
  (c2_amended_unique_winner [[[⟨200, 10, 0, 255⟩]], [[⟨0, 50, 60, 255⟩]]]
    [[[CDepth.fin 1]], [[CDepth.fin 2]]] [[⟨1, 2, 3⟩]] 1 1 0 0
    rfl rfl rfl rfl (by decide) (by decide) rfl (by decide) (by decide) (by decide)).2
    0 (by decide) (by decide)
    (all_getD_false_of_bounded _ 0 (by decide))
    (by decide) (by decide) (by decide)

unseal Nat.gcd Rat.add Rat.mul Rat.inv Rat.sub in
/-- Claim C8 counterexample: there is no explicit dimension validation.  A
2×1 fully-covering layer batch against a 1×1 background does NOT fail: the
size-1 background row broadcasts, and the call silently returns a 2×1
composite whose dimensions follow the layers, not the background. -/
theorem c8_counterexample_silent_broadcast :
    rheight ([[⟨7, 8, 9⟩]] : Raster RGB) = 1 ∧
    rheight ([[⟨255, 0, 0, 255⟩], [⟨0, 255, 0, 255⟩]] : Raster RGBA) = 2 ∧
    (combine_scene_image (.batch [[[⟨255, 0, 0, 255⟩], [⟨0, 255, 0, 255⟩]]])
        [[⟨7, 8, 9⟩]] .nodepth).1 = some [[⟨255, 0, 0⟩], [⟨0, 255, 0⟩]] := by
  exact ⟨rfl, rfl, by decide⟩

/-- Claim C8 (amended): the compositor performs no explicit dimension check;
a background/layer mismatch only surfaces when the final blend fails to
broadcast.  Whenever the heights (or widths) differ with both sizes
different from 1, the call raises (`none`) — but a mismatched size of 1
broadcasts silently (see the counterexample), so the failure is a numpy
broadcasting error, not a fail-fast dimension validation. -/
theorem c8_amended_mismatch (scene : SceneArg) (bg : Raster RGB) (dep : DepthArg)
    (hmis :
      (rheight ((layersOf scene).headD []) ≠ rheight bg ∧
       rheight ((layersOf scene).headD []) ≠ 1 ∧ rheight bg ≠ 1) ∨
      (rwidth ((layersOf scene).headD []) ≠ rwidth bg ∧
       rwidth ((layersOf scene).headD []) ≠ 1 ∧ rwidth bg ≠ 1)) :
    (combine_scene_image scene bg dep).1 = none := by
  have hcomp : composite (layersOf scene) bg (masksAtOf (layersOf scene) dep) = none := by
    unfold composite assemble
    rcases hmis with ⟨h1, h2, h3⟩ | ⟨h1, h2, h3⟩
    · have hbc : bcastDim (rheight ((layersOf scene).headD [])) (rheight bg) = none := by
        unfold bcastDim
        rw [if_neg h1, if_neg h2, if_neg h3]
      rw [hbc]
    · have hbc : bcastDim (rwidth ((layersOf scene).headD [])) (rwidth bg) = none := by
        unfold bcastDim
        rw [if_neg h1, if_neg h2, if_neg h3]
      rw [hbc]
      cases bcastDim (rheight ((layersOf scene).headD [])) (rheight bg) <;> rfl
  show (if depthGuard (layersOf scene) dep then
      composite (layersOf scene) bg (masksAtOf (layersOf scene) dep) else none) = none
  rw [hcomp]
  split <;> rfl

/-- Witness for C8 (amended): a 2×1 layer against a 3×1 background (both
sizes larger than 1) makes the call raise. -/
theorem c8_amended_mismatch_witness :
    (combine_scene_image (.batch [[[⟨1, 1, 1, 255⟩], [⟨1, 1, 1, 255⟩]]])
        [[⟨2, 2, 2⟩], [⟨2, 2, 2⟩], [⟨2, 2, 2⟩]] .nodepth).1 = none :=
  c8_amended_mismatch _ _ _ (Or.inl ⟨by decide, by decide, by decide⟩)

theorem zip_map_self {α β γ : Type} (f : α → β) (g : α → γ) (l : List α) :
    (l.map f).zip (l.map g) = l.map fun a => (f a, g a) := by
  induction l with
  | nil => rfl
  | cons a t ih => simp [List.zip_cons_cons, ih]

theorem minDepthAt_perm {ds₁ ds₂ : List (Raster CDepth)} (h : ds₁.Perm ds₂) (i j : ℕ) :
    minDepthAt ds₁ i j = minDepthAt ds₂ i j := by
  unfold minDepthAt
  exact foldr_of_perm _ CDepth.minD_left_comm (h.map _) _

theorem effMasksDepth_pairs (l : List (Raster RGBA × Raster CDepth)) (i j : ℕ) :
    effMasksDepth (l.map Prod.fst) ((l.map Prod.snd).map sentinelFix) i j =
      l.map fun p =>
        alphaValid (ratAt p.1 ⟨0, 0, 0, 0⟩ i j) &&
          decide (ratAt (sentinelFix p.2) .inf i j =
            minDepthAt ((l.map Prod.snd).map sentinelFix) i j) := by
  unfold effMasksDepth
  rw [List.map_map, zip_map_self, List.map_map]
  apply List.map_congr_left
  intro p _
  rfl

theorem effMasksNoDepth_pairs {β : Type} (l : List (Raster RGBA × β)) (i j : ℕ) :
    effMasksNoDepth (l.map Prod.fst) i j =
      l.map fun p => alphaValid (ratAt p.1 ⟨0, 0, 0, 0⟩ i j) := by
  unfold effMasksNoDepth
  rw [List.map_map]
  apply List.map_congr_left
  intro p _
  rfl

theorem sumBodies_pairs {β : Type} (l : List (Raster RGBA × β))
    (F : Raster RGBA × β → Bool) (i j : ℕ) :
    sumBodies (l.map Prod.fst) (l.map F) i j =
      sumQ (l.map fun p => if F p then normColor (ratAt p.1 ⟨0, 0, 0, 0⟩ i j) else ⟨0, 0, 0⟩) := by
  unfold sumBodies contribs
  rw [zip_map_self, List.map_map]
  congr 1

/-- Claim C7: the composite does not depend on the insertion order of the
layer batch.  For every list of (layer, depth) pairs and every permutation
of it (depth buffers permuted along), the depth-mode output image is the
same, and so is the no-depth output: order is never a tie-breaker. -/
theorem c7_permutation_invariance (l₁ l₂ : List (Raster RGBA × Raster CDepth))
    (bg : Raster RGB) (h w : ℕ) (hperm : l₁.Perm l₂)
    (hdims : ∀ p ∈ l₁, rheight p.1 = h ∧ rwidth p.1 = w) :
    (combine_scene_image (.batch (l₁.map Prod.fst)) bg (.listBatch (l₁.map Prod.snd))).1 =
      (combine_scene_image (.batch (l₂.map Prod.fst)) bg (.listBatch (l₂.map Prod.snd))).1 ∧
    (combine_scene_image (.batch (l₁.map Prod.fst)) bg .nodepth).1 =
      (combine_scene_image (.batch (l₂.map Prod.fst)) bg .nodepth).1 := by
  cases l₁ with
  | nil =>
      have h2 : l₂ = [] := hperm.symm.eq_nil
      subst h2
      exact ⟨rfl, rfl⟩
  | cons p t =>
      have hne : l₂ ≠ [] := by
        intro hcon
        rw [hcon] at hperm
        have := hperm.length_eq
        simp at this
      obtain ⟨q, t₂, rfl⟩ := List.exists_cons_of_ne_nil hne
      have hq : q ∈ p :: t := hperm.mem_iff.mpr (by simp)
      have hh₁ : rheight (((p :: t).map Prod.fst).headD []) = h := (hdims p (by simp)).1
      have hw₁ : rwidth (((p :: t).map Prod.fst).headD []) = w := (hdims p (by simp)).2
      have hh₂ : rheight (((q :: t₂).map Prod.fst).headD []) = h := (hdims q hq).1
      have hw₂ : rwidth (((q :: t₂).map Prod.fst).headD []) = w := (hdims q hq).2
      constructor
      · rw [combine_batch_listBatch _ _ _ (by simp), combine_batch_listBatch _ _ _ (by simp)]
        unfold composite
        rw [hh₁, hw₁, hh₂, hw₂]
        have hμ : minDepthAt (((p :: t).map Prod.snd).map sentinelFix) =
            minDepthAt (((q :: t₂).map Prod.snd).map sentinelFix) :=
          funext fun i => funext fun j =>
            minDepthAt_perm ((hperm.map Prod.snd).map sentinelFix) i j
        have hS : (fun i j => sumBodies ((p :: t).map Prod.fst)
            (effMasksDepth ((p :: t).map Prod.fst)
              (((p :: t).map Prod.snd).map sentinelFix) i j) i j) =
          (fun i j => sumBodies ((q :: t₂).map Prod.fst)
            (effMasksDepth ((q :: t₂).map Prod.fst)
              (((q :: t₂).map Prod.snd).map sentinelFix) i j) i j) := by
          funext i j
          rw [effMasksDepth_pairs, effMasksDepth_pairs, sumBodies_pairs, sumBodies_pairs]
          simp only [hμ]
          unfold sumQ
          exact foldr_of_perm _ QRGB.add_left_comm (hperm.map _) _
        have hA : (fun i j => (effMasksDepth ((p :: t).map Prod.fst)
              (((p :: t).map Prod.snd).map sentinelFix) i j).any id) =
          (fun i j => (effMasksDepth ((q :: t₂).map Prod.fst)
              (((q :: t₂).map Prod.snd).map sentinelFix) i j).any id) := by
          funext i j
          rw [effMasksDepth_pairs, effMasksDepth_pairs]
          simp only [hμ]
          exact any_of_perm _ (hperm.map _)
        rw [hS, hA]
      · rw [combine_batch_nodepth, combine_batch_nodepth]
        unfold composite
        rw [hh₁, hw₁, hh₂, hw₂]
        have hS : (fun i j => sumBodies ((p :: t).map Prod.fst)
            (effMasksNoDepth ((p :: t).map Prod.fst) i j) i j) =
          (fun i j => sumBodies ((q :: t₂).map Prod.fst)
            (effMasksNoDepth ((q :: t₂).map Prod.fst) i j) i j) := by
          funext i j
          rw [effMasksNoDepth_pairs, effMasksNoDepth_pairs, sumBodies_pairs, sumBodies_pairs]
          unfold sumQ
          exact foldr_of_perm _ QRGB.add_left_comm (hperm.map _) _
        have hA : (fun i j => (effMasksNoDepth ((p :: t).map Prod.fst) i j).any id) =
          (fun i j => (effMasksNoDepth ((q :: t₂).map Prod.fst) i j).any id) := by
          funext i j
          rw [effMasksNoDepth_pairs, effMasksNoDepth_pairs]
          exact any_of_perm _ (hperm.map _)
        rw [hS, hA]

unseal Nat.gcd Rat.add Rat.mul Rat.inv Rat.sub in
/-- Witness for C7: swapping two concrete 1×1 (layer, depth) pairs leaves
both the depth-mode and the no-depth composite unchanged. -/
theorem c7_permutation_invariance_witness :
    (combine_scene_image
        (.batch ([(([[⟨9, 0, 0, 255⟩]] : Raster RGBA), ([[CDepth.fin 1]] : Raster CDepth)),
          ([[⟨0, 9, 0, 255⟩]], [[CDepth.fin 2]])].map Prod.fst)) [[⟨5, 5, 5⟩]]
        (.listBatch ([(([[⟨9, 0, 0, 255⟩]] : Raster RGBA), ([[CDepth.fin 1]] : Raster CDepth)),
          ([[⟨0, 9, 0, 255⟩]], [[CDepth.fin 2]])].map Prod.snd))).1 =
      (combine_scene_image
        (.batch ([(([[⟨0, 9, 0, 255⟩]] : Raster RGBA), ([[CDepth.fin 2]] : Raster CDepth)),
          ([[⟨9, 0, 0, 255⟩]], [[CDepth.fin 1]])].map Prod.fst)) [[⟨5, 5, 5⟩]]
        (.listBatch ([(([[⟨0, 9, 0, 255⟩]] : Raster RGBA), ([[CDepth.fin 2]] : Raster CDepth)),
          ([[⟨9, 0, 0, 255⟩]], [[CDepth.fin 1]])].map Prod.snd))).1 ∧
    (combine_scene_image
        (.batch ([(([[⟨9, 0, 0, 255⟩]] : Raster RGBA), ([[CDepth.fin 1]] : Raster CDepth)),
          ([[⟨0, 9, 0, 255⟩]], [[CDepth.fin 2]])].map Prod.fst)) [[⟨5, 5, 5⟩]] .nodepth).1 =
      (combine_scene_image
        (.batch ([(([[⟨0, 9, 0, 255⟩]] : Raster RGBA), ([[CDepth.fin 2]] : Raster CDepth)),
          ([[⟨9, 0, 0, 255⟩]], [[CDepth.fin 1]])].map Prod.fst)) [[⟨5, 5, 5⟩]] .nodepth).1 :=
  c7_permutation_invariance
    [([[⟨9, 0, 0, 255⟩]], [[CDepth.fin 1]]), ([[⟨0, 9, 0, 255⟩]], [[CDepth.fin 2]])]
    [([[⟨0, 9, 0, 255⟩]], [[CDepth.fin 2]]), ([[⟨9, 0, 0, 255⟩]], [[CDepth.fin 1]])]
    [[⟨5, 5, 5⟩]] 1 1 (by decide) (by decide)
